import Mathlib

/-!
Shallow embedding of the Hacker Stories application (src/App.js):
the stories reducer, the search-history extraction over request URLs,
URL construction, and the column-sort table, together with theorems
checking the specification's claims about them.
-/

namespace HackerStories

/-- Story record as received from the API; objectID is the unique key. -/
structure Story where
  title : String
  url : String
  author : String
  num_comments : Int
  points : Int
  objectID : String
  deriving Repr, DecidableEq

/-- State managed by the stories reducer (App.js line 143 gives the initial value). -/
structure StoriesState where
  data : List Story
  page : Int
  isLoading : Bool
  isError : Bool
  deriving Repr, DecidableEq

/-- Payloads carried by the actions the program dispatches (App.js lines 153, 161, 169, 179):
no payload, a fetched page `{list, page}`, or a single story item. -/
inductive Payload where
  | empty : Payload
  | success (list : List Story) (page : Int) : Payload
  | item (story : Story) : Payload
  deriving Repr, DecidableEq

/-- A dispatched action: a type string together with its payload, as in the JS object
`{type, payload}`. -/
structure Action where
  type : String
  payload : Payload
  deriving Repr, DecidableEq

/-- The reducer of App.js lines 16-51. The JS `switch` on `action.type` is an `if` chain;
the `default` branch throws, and a branch that reads a field from a payload of the wrong
shape would also throw in JS, so both are modelled as `none`. -/
def storiesReducer (state : StoriesState) (action : Action) : Option StoriesState :=
  if action.type = "STORIES_FETCH_INIT" then
    some { state with isLoading := true, isError := false }
  else if action.type = "STORIES_FETCH_SUCCESS" then
    match action.payload with
    | .success list page =>
        some { state with
          isLoading := false
          isError := false
          data := if page = 0 then list else list ++ list
          page := page }
    | _ => none
  else if action.type = "STORIES_FETCH_FAILURE" then
    some { state with isLoading := false, isError := true }
  else if action.type = "REMOVE_STORY" then
    match action.payload with
    | .item story =>
        some { state with
          data := state.data.filter (fun st => story.objectID != st.objectID) }
    | _ => none
  else
    none

/-- Initial reducer state from App.js line 143: `{data: [], page: 0, isLoading: false, isError: false}`. -/
def initialStoriesState : StoriesState :=
  { data := [], page := 0, isLoading := false, isError := false }

/-- Running a sequence of dispatched actions through the reducer; a throw aborts the run. -/
def runActions (state : StoriesState) (acts : List Action) : Option StoriesState :=
  match acts with
  | [] => some state
  | a :: rest =>
    match storiesReducer state a with
    | some next => runActions next rest
    | none => none

/-- The REMOVE_STORY action dispatched by handleRemoveStory (App.js lines 178-183). -/
def removeAction (story : Story) : Action :=
  { type := "REMOVE_STORY", payload := .item story }

/-! JS strings are modelled as lists of characters. -/

/-- Model of a JavaScript string. -/
abbrev JSStr := List Char

/-- Model of JS `String.prototype.lastIndexOf` for a single character:
index of the last occurrence, or -1 when absent. -/
def lastIndexOf (s : JSStr) (c : Char) : Int :=
  match s with
  | [] => -1
  | h :: t =>
    if lastIndexOf t c = -1 then (if h = c then 0 else -1) else lastIndexOf t c + 1

/-- Clamping of a JS `substring` argument into `[0, length]`. -/
def clampIdx (s : JSStr) (x : Int) : Nat :=
  (min (max x 0) (s.length : Int)).toNat

/-- Model of JS `String.prototype.substring`: both arguments are clamped to
`[0, length]` and swapped when out of order, then the half-open slice is taken. -/
def jsSubstring (s : JSStr) (a b : Int) : JSStr :=
  (s.take (max (clampIdx s a) (clampIdx s b))).drop (min (clampIdx s a) (clampIdx s b))

/-- Model of JS `String.prototype.replace` with a string pattern: only the first
occurrence of the pattern is replaced; an empty pattern matches at position 0. -/
def replaceFirst (s pat repl : JSStr) : JSStr :=
  match s with
  | [] => if pat = [] then repl else []
  | h :: t =>
    if pat.isPrefixOf (h :: t) then repl ++ (h :: t).drop pat.length
    else h :: replaceFirst t pat repl

/-- Fueled helper for decimal printing; the fuel always suffices at the call site. -/
def natToCharsAux (fuel n : Nat) : List Char :=
  match fuel with
  | 0 => []
  | fuel + 1 =>
    if n < 10 then [Nat.digitChar n]
    else natToCharsAux fuel (n / 10) ++ [Nat.digitChar (n % 10)]

/-- Model of JS number-to-string conversion for a natural number (decimal digits). -/
def natToChars (n : Nat) : List Char := natToCharsAux (n + 1) n

/-- App.js line 10. -/
def API_BASE : JSStr := "https://hn.algolia.com/api/v1".toList

/-- App.js line 11. -/
def API_SEARCH : JSStr := "/search".toList

/-- App.js line 12. -/
def PARAM_SEARCH : JSStr := "query=".toList

/-- App.js line 13. -/
def PARAM_PAGE : JSStr := "page=".toList

/-- App.js lines 75-77: take the substring between the last `?` (exclusive) and the
last `&`, then strip the first occurrence of `query=`. -/
def extractSearchTerm (url : JSStr) : JSStr :=
  replaceFirst (jsSubstring url (lastIndexOf url '?' + 1) (lastIndexOf url '&')) PARAM_SEARCH []

/-- One step of the `reduce` in App.js lines 81-95, acting on an (index, url) pair:
always append the first term; afterwards append only terms that differ from the last
appended one. -/
def historyReduceStep (result : List JSStr) (indexed : Nat × JSStr) : List JSStr :=
  let searchTerm := extractSearchTerm indexed.2
  if indexed.1 = 0 then result ++ [searchTerm]
  else
    match result.getLast? with
    | some previousSearchTerm =>
      if searchTerm = previousSearchTerm then result else result ++ [searchTerm]
    | none => result ++ [searchTerm]

/-- App.js lines 79-97: collapse adjacent duplicate search terms, then `slice(-6)`
(keep the last six) and `slice(0, -1)` (drop the final element). -/
def getLastSearches (urls : List JSStr) : List JSStr :=
  let reduced := urls.enum.foldl historyReduceStep []
  (reduced.drop (reduced.length - 6)).dropLast

/-- App.js line 99: build the request URL from a search term and a page number. -/
def getUrl (searchTerm : JSStr) (page : Nat) : JSStr :=
  API_BASE ++ API_SEARCH ++ "?".toList ++ PARAM_SEARCH ++ searchTerm
    ++ "&".toList ++ PARAM_PAGE ++ natToChars page

/-! Column sorting (App.js lines 307-313). -/

/-- The keys of the SORTS object. -/
inductive SortKey where
  | NONE | TITLE | AUTHOR | COMMENT | POINT
  deriving Repr, DecidableEq

/-- Model of lodash `sortBy` with a single iteratee: a stable ascending sort
by the extracted key. -/
def sortByKey {β : Type} [LinearOrder β] (key : Story → β) (list : List Story) : List Story :=
  list.mergeSort (fun a b => decide (key a ≤ key b))

/-- App.js lines 307-313: the column sort handlers. -/
def SORTS (k : SortKey) : List Story → List Story :=
  match k with
  | .NONE => fun list => list
  | .TITLE => fun list => sortByKey (fun st => st.title) list
  | .AUTHOR => fun list => sortByKey (fun st => st.author) list
  | .COMMENT => fun list => (sortByKey (fun st => st.num_comments) list).reverse
  | .POINT => fun list => (sortByKey (fun st => st.points) list).reverse

/-! Theorems about the reducer. -/

/-- C1: for every state and every STORIES_FETCH_SUCCESS action, the reducer returns a
state with isLoading=false, isError=false, page set to the payload's page, data replaced
by the payload list when the payload page is 0, and for a payload page different from 0
the data is the payload list concatenated with itself (not with the prior data). -/
theorem fetch_success_spec (s : StoriesState) (list : List Story) (page : Int) :
    ∃ next,
      storiesReducer s { type := "STORIES_FETCH_SUCCESS", payload := .success list page } =
          some next
        ∧ next.isLoading = false ∧ next.isError = false ∧ next.page = page
        ∧ (page = 0 → next.data = list)
        ∧ (page ≠ 0 → next.data = list ++ list) := by
  refine ⟨_, rfl, rfl, rfl, rfl, ?_, ?_⟩ <;> intro h <;> simp [storiesReducer, h]

/-- Witness for fetch_success_spec at a concrete state and payload. -/
theorem fetch_success_spec_witness :
    ∃ next,
      storiesReducer initialStoriesState
          { type := "STORIES_FETCH_SUCCESS", payload := .success [] 1 } = some next
        ∧ next.isLoading = false ∧ next.isError = false ∧ next.page = 1
        ∧ ((1 : Int) = 0 → next.data = [])
        ∧ ((1 : Int) ≠ 0 → next.data = [] ++ []) :=
  fetch_success_spec initialStoriesState [] 1

/-- C4: applying STORIES_FETCH_INIT yields isLoading=true and isError=false regardless of
the prior state, and leaves data and page unchanged. -/
theorem fetch_init_spec (s : StoriesState) (p : Payload) :
    ∃ next,
      storiesReducer s { type := "STORIES_FETCH_INIT", payload := p } = some next
        ∧ next.isLoading = true ∧ next.isError = false
        ∧ next.data = s.data ∧ next.page = s.page :=
  ⟨_, rfl, rfl, rfl, rfl, rfl⟩

/-- C5: applying STORIES_FETCH_FAILURE yields isLoading=false and isError=true, and
leaves data and page unchanged. -/
theorem fetch_failure_spec (s : StoriesState) (p : Payload) :
    ∃ next,
      storiesReducer s { type := "STORIES_FETCH_FAILURE", payload := p } = some next
        ∧ next.isLoading = false ∧ next.isError = true
        ∧ next.data = s.data ∧ next.page = s.page :=
  ⟨_, rfl, rfl, rfl, rfl, rfl⟩

/-- C6: an action whose type is none of the four recognized types makes the reducer
throw, modelled as returning no next state. -/
theorem unrecognized_action_throws (s : StoriesState) (a : Action)
    (h : a.type ∉ ["STORIES_FETCH_INIT", "STORIES_FETCH_SUCCESS",
      "STORIES_FETCH_FAILURE", "REMOVE_STORY"]) :
    storiesReducer s a = none := by
  simp only [List.mem_cons, List.mem_singleton, not_or] at h
  obtain ⟨h1, h2, h3, h4⟩ := h
  simp [storiesReducer, h1, h2, h3, h4]

/-- Witness for unrecognized_action_throws at a concrete action type. -/
theorem unrecognized_action_throws_witness :
    ({ type := "SOME_OTHER_ACTION", payload := .empty } : Action).type ∉
        (["STORIES_FETCH_INIT", "STORIES_FETCH_SUCCESS",
          "STORIES_FETCH_FAILURE", "REMOVE_STORY"] : List String)
      ∧ storiesReducer initialStoriesState
          { type := "SOME_OTHER_ACTION", payload := .empty } = none :=
  ⟨by decide, unrecognized_action_throws _ _ (by decide)⟩

/-- The REMOVE_STORY branch of the reducer (App.js lines 41-47), as an equation. -/
lemma storiesReducer_remove (s : StoriesState) (story : Story) :
    storiesReducer s (removeAction story) =
      some { s with data := s.data.filter (fun st => story.objectID != st.objectID) } := rfl

/-- C2: any sequence of REMOVE_STORY actions leaves a data list that is a sublist of the
prior data (so relative order is preserved), contains no story whose objectID equals a
removed item's objectID, and leaves page, isLoading and isError unchanged. -/
theorem remove_story_spec (s : StoriesState) (items : List Story) :
    ∃ next, runActions s (items.map removeAction) = some next
      ∧ next.data.Sublist s.data
      ∧ (∀ st ∈ next.data, ∀ it ∈ items, st.objectID ≠ it.objectID)
      ∧ next.page = s.page ∧ next.isLoading = s.isLoading ∧ next.isError = s.isError := by
  induction items generalizing s with
  | nil => exact ⟨s, rfl, List.Sublist.refl _, by simp, rfl, rfl, rfl⟩
  | cons it rest ih =>
    obtain ⟨next, hrun, hsub, hnot, hpg, hld, herr⟩ :=
      ih { s with data := s.data.filter (fun st => it.objectID != st.objectID) }
    refine ⟨next, ?_, ?_, ?_, hpg, hld, herr⟩
    · simp only [List.map_cons, runActions, storiesReducer_remove]
      exact hrun
    · exact hsub.trans (List.filter_sublist _)
    · intro st hst it2 hit2
      rcases List.mem_cons.mp hit2 with h | h
      · subst h
        have hmem : st ∈ s.data.filter (fun x => it2.objectID != x.objectID) := hsub.subset hst
        have hne := (List.mem_filter.mp hmem).2
        simp only [bne_iff_ne, ne_eq] at hne
        exact fun he => hne he.symm
      · exact hnot st hst it2 h

/-- A single reducer step cannot produce a state with both isLoading and isError set,
except by copying both flags from the previous state (REMOVE_STORY). -/
lemma reducer_preserves_flags (s : StoriesState) (a : Action) (next : StoriesState)
    (h : storiesReducer s a = some next)
    (hs : ¬(s.isLoading = true ∧ s.isError = true)) :
    ¬(next.isLoading = true ∧ next.isError = true) := by
  simp only [storiesReducer] at h
  split_ifs at h <;> first
    | (injection h with h; subst h; simp_all)
    | (split at h <;> first
        | (injection h with h; subst h; simp_all)
        | simp at h)

/-- The mutual-exclusion flag invariant is preserved along any action sequence. -/
lemma runActions_preserves_flags : ∀ (acts : List Action) (s next : StoriesState),
    runActions s acts = some next →
    ¬(s.isLoading = true ∧ s.isError = true) →
    ¬(next.isLoading = true ∧ next.isError = true) := by
  intro acts
  induction acts with
  | nil =>
    intro s next h hs
    injection h with h; subst h; exact hs
  | cons a rest ih =>
    intro s next h hs
    cases hstep : storiesReducer s a with
    | none => simp [runActions, hstep] at h
    | some mid =>
      simp only [runActions, hstep] at h
      exact ih mid next h (reducer_preserves_flags s a mid hstep hs)

/-- C3: in every state reachable from the initial state by reducer actions, isLoading and
isError are never both true; moreover FETCH_SUCCESS always ends with isLoading=false and
isError=false, and FETCH_FAILURE with isLoading=false and isError=true. -/
theorem loading_error_invariant :
    (∀ (acts : List Action) (next : StoriesState),
        runActions initialStoriesState acts = some next →
          ¬(next.isLoading = true ∧ next.isError = true))
    ∧ (∀ (s : StoriesState) (list : List Story) (page : Int) (next : StoriesState),
        storiesReducer s { type := "STORIES_FETCH_SUCCESS", payload := .success list page } =
            some next →
          next.isLoading = false ∧ next.isError = false)
    ∧ (∀ (s : StoriesState) (p : Payload) (next : StoriesState),
        storiesReducer s { type := "STORIES_FETCH_FAILURE", payload := p } = some next →
          next.isLoading = false ∧ next.isError = true) := by
  refine ⟨?_, ?_, ?_⟩
  · intro acts next h
    exact runActions_preserves_flags acts initialStoriesState next h (by simp [initialStoriesState])
  · intro s list page next h
    injection h with h; subst h; exact ⟨rfl, rfl⟩
  · intro s p next h
    injection h with h; subst h; exact ⟨rfl, rfl⟩

/-- Witness for loading_error_invariant at concrete action sequences and states. -/
theorem loading_error_invariant_witness :
    (¬(initialStoriesState.isLoading = true ∧ initialStoriesState.isError = true))
    ∧ (initialStoriesState.isLoading = false ∧ initialStoriesState.isError = false)
    ∧ ((⟨[], 0, false, true⟩ : StoriesState).isLoading = false
        ∧ (⟨[], 0, false, true⟩ : StoriesState).isError = true) :=
  ⟨loading_error_invariant.1 [] initialStoriesState rfl,
   loading_error_invariant.2.1 initialStoriesState [] 0 initialStoriesState rfl,
   loading_error_invariant.2.2 initialStoriesState .empty ⟨[], 0, false, true⟩ rfl⟩

/-- A sample story for concrete instantiations. -/
def sampleStory : Story :=
  { title := "React", url := "https://reactjs.org/", author := "Jordan Walke",
    num_comments := 3, points := 4, objectID := "0" }

/-- Witness for remove_story_spec at a concrete state and item list. -/
theorem remove_story_spec_witness :
    ∃ next,
      runActions ⟨[sampleStory], 0, false, false⟩ ([sampleStory].map removeAction) = some next
        ∧ next.data.Sublist (⟨[sampleStory], 0, false, false⟩ : StoriesState).data
        ∧ (∀ st ∈ next.data, ∀ it ∈ [sampleStory], st.objectID ≠ it.objectID)
        ∧ next.page = (⟨[sampleStory], 0, false, false⟩ : StoriesState).page
        ∧ next.isLoading = (⟨[sampleStory], 0, false, false⟩ : StoriesState).isLoading
        ∧ next.isError = (⟨[sampleStory], 0, false, false⟩ : StoriesState).isError :=
  remove_story_spec ⟨[sampleStory], 0, false, false⟩ [sampleStory]

/-! Theorems about the search-history extraction. -/

/-- The fold of App.js lines 81-95 over the enumerated URLs, started from any nonempty
accumulator and any positive index, appends exactly the adjacent-duplicate-free tail. -/
lemma foldl_historyStep_enumFrom (urls : List JSStr) : ∀ (k : Nat), k ≠ 0 →
    ∀ (ys : List JSStr) (a : JSStr),
    (List.enumFrom k urls).foldl historyReduceStep (ys ++ [a]) =
      ys ++ List.destutter' (· ≠ ·) a (urls.map extractSearchTerm) := by
  induction urls with
  | nil => intro k _ ys a; simp
  | cons u rest ih =>
    intro k hk ys a
    rw [List.enumFrom_cons, List.foldl_cons, List.map_cons, List.destutter'_cons]
    have hstep : historyReduceStep (ys ++ [a]) (k, u) =
        if extractSearchTerm u = a then ys ++ [a] else (ys ++ [a]) ++ [extractSearchTerm u] := by
      simp [historyReduceStep, hk, List.getLast?_concat]
    rw [hstep]
    by_cases hc : extractSearchTerm u = a
    · rw [if_pos hc, if_neg (by simp [hc]), ih (k + 1) (by omega) ys a]
    · rw [if_neg hc, if_pos (Ne.symm hc),
        ih (k + 1) (by omega) (ys ++ [a]) (extractSearchTerm u)]
      simp

/-- The reduce of App.js lines 81-95 computes exactly the adjacent-duplicate collapse
(destutter under inequality) of the extracted search terms. -/
lemma historyFold_eq_destutter (urls : List JSStr) :
    urls.enum.foldl historyReduceStep [] =
      (urls.map extractSearchTerm).destutter (· ≠ ·) := by
  cases urls with
  | nil => rfl
  | cons u rest =>
    rw [List.enum_cons, List.foldl_cons, List.map_cons, List.destutter_cons']
    have hstep : historyReduceStep [] (0, u) = [] ++ [extractSearchTerm u] := by
      simp [historyReduceStep]
    rw [hstep, foldl_historyStep_enumFrom rest 1 (by omega) [] (extractSearchTerm u)]
    simp

/-- C7: getLastSearches equals the adjacent-duplicate collapse of the extracted terms,
restricted to the last six entries with the final one dropped; hence it has at most five
elements and no two adjacent equal terms. -/
theorem getLastSearches_spec (urls : List JSStr) :
    getLastSearches urls =
      (((urls.map extractSearchTerm).destutter (· ≠ ·)).drop
        (((urls.map extractSearchTerm).destutter (· ≠ ·)).length - 6)).dropLast
    ∧ (getLastSearches urls).length ≤ 5
    ∧ (getLastSearches urls).Chain' (· ≠ ·) := by
  have hd := historyFold_eq_destutter urls
  refine ⟨by simp only [getLastSearches, hd], ?_, ?_⟩
  · simp only [getLastSearches]
    set r := urls.enum.foldl historyReduceStep [] with hr
    have h1 : (r.drop (r.length - 6)).length = r.length - (r.length - 6) :=
      List.length_drop _ _
    have h2 : ((r.drop (r.length - 6)).dropLast).length = (r.drop (r.length - 6)).length - 1 :=
      List.length_dropLast _
    omega
  · simp only [getLastSearches, hd]
    exact ((List.destutter_is_chain' _ _).drop _).init

/-- C8 as stated is false: on the given URL history the extractor yields a nonempty list. -/
theorem getLastSearches_example_ne_nil :
    getLastSearches
        ["?query=a&page=0".toList, "?query=a&page=0".toList, "?query=b&page=0".toList] ≠
      [] := by
  rw [show getLastSearches
      ["?query=a&page=0".toList, "?query=a&page=0".toList, "?query=b&page=0".toList] =
      [['a']] from rfl]
  simp

/-- C8, amended: on the URL history `[?query=a&page=0, ?query=a&page=0, ?query=b&page=0]`
the extractor yields `["a"]`: the terms collapse to `[a, b]` and the slicing drops only
the final term `b`. -/
theorem getLastSearches_example :
    getLastSearches
        ["?query=a&page=0".toList, "?query=a&page=0".toList, "?query=b&page=0".toList] =
      ["a".toList] := rfl

/-! Theorems about URL construction and term extraction. -/

/-- lastIndexOf never returns less than -1. -/
lemma lastIndexOf_ge_neg_one (s : JSStr) (c : Char) : -1 ≤ lastIndexOf s c := by
  induction s with
  | nil => simp [lastIndexOf]
  | cons h t ih =>
    simp only [lastIndexOf]
    split_ifs <;> omega

/-- lastIndexOf returns -1 exactly for absent characters. -/
lemma lastIndexOf_eq_neg_one_iff (s : JSStr) (c : Char) :
    lastIndexOf s c = -1 ↔ c ∉ s := by
  induction s with
  | nil => simp [lastIndexOf]
  | cons h t ih =>
    have hge := lastIndexOf_ge_neg_one t c
    simp only [lastIndexOf, List.mem_cons]
    split_ifs with h1 h2
    · subst h2; simp [ih.mp h1]
    · simp only [not_or]
      constructor
      · intro _; exact ⟨fun hch => h2 hch.symm, ih.mp h1⟩
      · intro _; trivial
    · constructor
      · intro habs; omega
      · intro hno
        exact absurd (ih.mpr (fun hmem => hno (Or.inr hmem))) h1

/-- lastIndexOf on an append defers to the right part when the character occurs there. -/
lemma lastIndexOf_append (a b : JSStr) (c : Char) :
    lastIndexOf (a ++ b) c =
      if lastIndexOf b c = -1 then lastIndexOf a c
      else (a.length : Int) + lastIndexOf b c := by
  induction a with
  | nil => by_cases hb : lastIndexOf b c = -1 <;> simp [lastIndexOf, hb]
  | cons h t ih =>
    have hge := lastIndexOf_ge_neg_one b c
    by_cases hb : lastIndexOf b c = -1
    · simp only [List.cons_append, lastIndexOf, List.append_eq, ih, if_pos hb]
    · have hne : ¬((t.length : Int) + lastIndexOf b c = -1) := by omega
      simp only [List.cons_append, lastIndexOf, List.append_eq, ih, if_neg hb, if_neg hne,
        List.length_cons]
      push_cast
      omega

/-- An occurrence followed only by characters different from it is the last occurrence. -/
lemma lastIndexOf_last_occurrence (a b : JSStr) (c : Char) (hb : c ∉ b) :
    lastIndexOf (a ++ c :: b) c = (a.length : Int) := by
  have hb1 : lastIndexOf b c = -1 := (lastIndexOf_eq_neg_one_iff b c).mpr hb
  have h1 : lastIndexOf (c :: b) c = 0 := by simp [lastIndexOf, hb1]
  rw [lastIndexOf_append, h1]
  norm_num

/-- jsSubstring with in-range, ordered natural arguments is plain take-then-drop. -/
lemma jsSubstring_natural (s : JSStr) (lo hi : Nat) (h1 : lo ≤ hi) (h2 : hi ≤ s.length) :
    jsSubstring s (lo : Int) (hi : Int) = (s.take hi).drop lo := by
  have ha : clampIdx s (lo : Int) = lo := by unfold clampIdx; omega
  have hb : clampIdx s (hi : Int) = hi := by unfold clampIdx; omega
  rw [jsSubstring, ha, hb, Nat.max_eq_right h1, Nat.min_eq_left h1]

/-- Replacing a nonempty pattern inside a string that starts with it strips that pattern. -/
lemma replaceFirst_self (pat rest : JSStr) (hne : pat ≠ []) :
    replaceFirst (pat ++ rest) pat [] = rest := by
  cases pat with
  | nil => exact absurd rfl hne
  | cons p pt =>
    have hpre : (p :: pt).isPrefixOf (p :: (pt ++ rest)) = true :=
      List.isPrefixOf_iff_prefix.mpr ⟨rest, rfl⟩
    show replaceFirst (p :: (pt ++ rest)) (p :: pt) [] = rest
    simp [replaceFirst, hpre, List.drop_left]

/-- Every character emitted by the fueled decimal printer is a digit character. -/
lemma mem_natToCharsAux (fuel : Nat) : ∀ (n : Nat) (c : Char), c ∈ natToCharsAux fuel n →
    ∃ k, k < 10 ∧ c = Nat.digitChar k := by
  induction fuel with
  | zero => intro n c hc; simp [natToCharsAux] at hc
  | succ fuel ih =>
    intro n c hc
    by_cases h10 : n < 10
    · simp [natToCharsAux, h10] at hc
      exact ⟨n, h10, hc⟩
    · simp only [natToCharsAux, if_neg h10, List.mem_append, List.mem_singleton] at hc
      rcases hc with hc | hc
      · exact ih _ _ hc
      · exact ⟨n % 10, Nat.mod_lt _ (by omega), hc⟩

/-- Decimal digits of a page number are never a question mark or an ampersand. -/
lemma natToChars_no_url_marks (n : Nat) (c : Char) (hc : c ∈ natToChars n) :
    c ≠ '?' ∧ c ≠ '&' := by
  obtain ⟨k, hk, rfl⟩ := mem_natToCharsAux (n + 1) n c hc
  have hall : ∀ k, k < 10 → Nat.digitChar k ≠ '?' ∧ Nat.digitChar k ≠ '&' := by decide
  exact hall k hk

/-- C9: for every search term without a question mark and every page number,
extracting the search term from the constructed request URL gives back the term. -/
theorem extract_getUrl_roundtrip (term : JSStr) (page : Nat) (h : '?' ∉ term) :
    extractSearchTerm (getUrl term page) = term := by
  have hurl : getUrl term page =
      "https://hn.algolia.com/api/v1/search".toList ++
        ('?' :: ("query=".toList ++
          (term ++ '&' :: ("page=".toList ++ natToChars page)))) := by
    simp only [getUrl, List.append_assoc]
    rfl
  have hPq : '?' ∉ "page=".toList ++ natToChars page := by
    intro hmem
    rcases List.mem_append.mp hmem with hm | hm
    · revert hm; decide
    · exact (natToChars_no_url_marks page _ hm).1 rfl
  have hPa : '&' ∉ "page=".toList ++ natToChars page := by
    intro hmem
    rcases List.mem_append.mp hmem with hm | hm
    · revert hm; decide
    · exact (natToChars_no_url_marks page _ hm).2 rfl
  have hq_tail : '?' ∉ "query=".toList ++
      (term ++ '&' :: ("page=".toList ++ natToChars page)) := by
    intro hmem
    rcases List.mem_append.mp hmem with hm | hm
    · revert hm; decide
    · rcases List.mem_append.mp hm with hm2 | hm2
      · exact h hm2
      · rcases List.mem_cons.mp hm2 with hc | hc
        · exact absurd hc (by decide)
        · exact hPq hc
  have hshape : getUrl term page =
      ("https://hn.algolia.com/api/v1/search".toList ++ '?' :: ("query=".toList ++ term)) ++
        '&' :: ("page=".toList ++ natToChars page) := by
    rw [hurl]; simp [List.append_assoc]
  have hlq : lastIndexOf (getUrl term page) '?' = (36 : Int) := by
    rw [hurl, lastIndexOf_last_occurrence _ _ _ hq_tail]
    rfl
  have hla : lastIndexOf (getUrl term page) '&' = ((43 + term.length : Nat) : Int) := by
    rw [hshape, lastIndexOf_last_occurrence _ _ _ hPa]
    simp [List.length_append]
    omega
  have hulen : 43 + term.length ≤ (getUrl term page).length := by
    rw [hurl]
    simp [List.length_append]
    omega
  rw [extractSearchTerm, hlq, hla,
    show (36 : Int) + 1 = ((37 : Nat) : Int) from by norm_num,
    jsSubstring_natural _ 37 (43 + term.length) (by omega) hulen]
  have htake : (getUrl term page).take (43 + term.length) =
      "https://hn.algolia.com/api/v1/search".toList ++ '?' :: ("query=".toList ++ term) := by
    rw [hshape,
      show 43 + term.length =
        ("https://hn.algolia.com/api/v1/search".toList ++
          '?' :: ("query=".toList ++ term)).length from by simp [List.length_append]; omega]
    exact List.take_left _ _
  have hdrop : ("https://hn.algolia.com/api/v1/search".toList ++
      '?' :: ("query=".toList ++ term)).drop 37 = "query=".toList ++ term := by
    rw [show "https://hn.algolia.com/api/v1/search".toList ++
        '?' :: ("query=".toList ++ term) =
        ("https://hn.algolia.com/api/v1/search".toList ++ ['?']) ++
          ("query=".toList ++ term) from by simp,
      show (37 : Nat) =
        ("https://hn.algolia.com/api/v1/search".toList ++ ['?']).length from by simp]
    exact List.drop_left _ _
  rw [htake, hdrop]
  exact replaceFirst_self _ _ (by decide)

/-- Witness for extract_getUrl_roundtrip at a concrete term and page. -/
theorem extract_getUrl_roundtrip_witness :
    '?' ∉ "react".toList ∧ extractSearchTerm (getUrl "react".toList 2) = "react".toList :=
  ⟨by decide, extract_getUrl_roundtrip "react".toList 2 (by decide)⟩

/-! Theorems about column sorting. -/

/-- C10: every column sort handler returns a permutation of its input list (no item is
added, dropped or duplicated), and the NONE handler is the identity. -/
theorem sorts_perm (k : SortKey) (list : List Story) :
    List.Perm (SORTS k list) list ∧ SORTS .NONE list = list := by
  refine ⟨?_, rfl⟩
  cases k
  · exact List.Perm.refl _
  · exact List.mergeSort_perm _ _
  · exact List.mergeSort_perm _ _
  · exact (List.reverse_perm _).trans (List.mergeSort_perm _ _)
  · exact (List.reverse_perm _).trans (List.mergeSort_perm _ _)

end HackerStories
